import Mathlib

/-!
Verification of `src/ino.c`, a directory-change observer built on inotify.

The file shallowly embeds the program: the event-decoding loop of
`handle_events` (src/ino.c:40-72) over a byte buffer, the per-record output
line (kind tags, resolved directory, entry name, object-kind annotation),
the watch-descriptor table built in `main` (src/ino.c:113-120), the drain
loop of `handle_events` (src/ino.c:25-37) and the poll loop of `main`
(src/ino.c:140-174).  OS interactions (read, poll, inotify_add_watch) are
modelled by explicit traces of their results.
-/

namespace Ino

/-! ### inotify mask bits (linux/inotify.h values used by ino.c) -/

def IN_CLOSE_WRITE : Nat := 8
def IN_CLOSE_NOWRITE : Nat := 16
def IN_OPEN : Nat := 32
def IN_MOVED_FROM : Nat := 64
def IN_MOVED_TO : Nat := 128
def IN_ISDIR : Nat := 1073741824

/-! ### Binary event records

A `struct inotify_event` is a 16-byte header { int wd; uint32_t mask;
uint32_t cookie; uint32_t len } followed by `len` name bytes; all fields
little-endian on the platforms the program targets. -/

/-- Size in bytes of the fixed `struct inotify_event` header. -/
def headerSize : Nat := 16

/-- Little-endian bytes of a 32-bit field. -/
def leBytes4 (n : Nat) : List Nat :=
  [n % 256, n / 256 % 256, n / 65536 % 256, n / 16777216 % 256]

/-- Value of four little-endian bytes. -/
def leNat4 (b0 b1 b2 b3 : Nat) : Nat :=
  b0 + 256 * b1 + 65536 * b2 + 16777216 * b3

/-- A decoded `struct inotify_event`: `name` holds exactly the `len` trailing
name bytes (so the wire-level `name_length` is `name.length`). -/
structure RawRecord where
  wd : Nat
  mask : Nat
  cookie : Nat
  name : List Nat
deriving DecidableEq, Repr

/-- Fields of a record fit in their 32-bit wire slots. -/
def WellFormed (r : RawRecord) : Prop :=
  r.wd < 4294967296 ∧ r.mask < 4294967296 ∧ r.cookie < 4294967296 ∧
    r.name.length < 4294967296

instance (r : RawRecord) : Decidable (WellFormed r) := by
  unfold WellFormed; infer_instance

/-- Wire form of one record: 16-byte header then the name bytes. -/
def encodeRecord (r : RawRecord) : List Nat :=
  leBytes4 r.wd ++ leBytes4 r.mask ++ leBytes4 r.cookie ++
    leBytes4 r.name.length ++ r.name

/-- Wire form of a sequence of records, packed contiguously. -/
def encodeRecords (rs : List RawRecord) : List Nat :=
  (rs.map encodeRecord).flatten

/-- The decoding loop of `handle_events` (src/ino.c:40-72): starting at the
buffer base, while the cursor is below the valid length read the fixed
header, take the following `name_length` bytes as the name, and advance by
`headerSize + name_length`.  Where the C code would read past the valid
length (a malformed buffer, undefined behaviour there) this model returns
`none`; on buffers made of whole records the two agree. -/
def decodeEvents (buf : List Nat) : Option (List RawRecord) :=
  match buf with
  | [] => some []
  | b0 :: b1 :: b2 :: b3 :: b4 :: b5 :: b6 :: b7 ::
    b8 :: b9 :: b10 :: b11 :: b12 :: b13 :: b14 :: b15 :: rest =>
    let nameLen := leNat4 b12 b13 b14 b15
    if nameLen ≤ rest.length then
      match decodeEvents (rest.drop nameLen) with
      | some rs =>
        some ({ wd := leNat4 b0 b1 b2 b3, mask := leNat4 b4 b5 b6 b7,
                cookie := leNat4 b8 b9 b10 b11, name := rest.take nameLen } :: rs)
      | none => none
    else none
  | _ => none
termination_by buf.length
decreasing_by simp [List.length_drop]; omega

/-! ### Output line of one record (src/ino.c:43-71) -/

/-- Kind tags printed for a mask, in the order of the if-chain at
src/ino.c:44-53: IN_OPEN, IN_CLOSE_NOWRITE, IN_CLOSE_WRITE, IN_MOVED_FROM,
IN_MOVED_TO; each tag carries its separator exactly as the printf does. -/
def kindTags (mask : Nat) : List String :=
  (if mask &&& IN_OPEN ≠ 0 then ["IN_OPEN: "] else []) ++
  (if mask &&& IN_CLOSE_NOWRITE ≠ 0 then ["IN_CLOSE_NOWRITE: "] else []) ++
  (if mask &&& IN_CLOSE_WRITE ≠ 0 then ["IN_CLOSE_WRITE: "] else []) ++
  (if mask &&& IN_MOVED_FROM ≠ 0 then ["IN_MOVED_FROM: "] else []) ++
  (if mask &&& IN_MOVED_TO ≠ 0 then ["IN_MOVED_TO: "] else [])

/-- Object-kind suffix of every line (src/ino.c:68-71), newline included. -/
def objectTag (mask : Nat) : String :=
  if mask &&& IN_ISDIR ≠ 0 then " [directory]\n" else " [file]\n"

/-- The lookup loop at src/ino.c:56-61: scan the (wd, path) table in argv
order and stop at the first entry whose watch descriptor matches; nothing is
found for an unknown descriptor. -/
def resolve (table : List (Nat × String)) (id : Nat) : Option String :=
  match table with
  | [] => none
  | (w, p) :: rest => if w = id then some p else resolve rest id

/-- Directory segment of the line: `path/` for the first matching table
entry, nothing when no entry matches (src/ino.c:55-61). -/
def dirSegment (table : List (Nat × String)) (id : Nat) : String :=
  match resolve table id with
  | some p => p ++ "/"
  | none => ""

/-- Bytes rendered as text (the C strings here are single-byte). -/
def bytesToString (bs : List Nat) : String :=
  String.mk (bs.map Char.ofNat)

/-- Name segment (src/ino.c:64-65): printed only when `event->len` is
non-zero, and `%s` stops at the first NUL of the name bytes. -/
def nameSegment (r : RawRecord) : String :=
  if r.name.length ≠ 0 then bytesToString (r.name.takeWhile (fun b => b ≠ 0))
  else ""

/-- The one output line of a record: kind tags, directory segment, name
segment, object-kind annotation (src/ino.c:43-71). -/
def reportLine (table : List (Nat × String)) (r : RawRecord) : String :=
  String.join (kindTags r.mask) ++ dirSegment table r.wd ++ nameSegment r ++
    objectTag r.mask

/-- One line per record of a decoded buffer (the inner loop body runs once
per record). -/
def reportAll (table : List (Nat × String)) (rs : List RawRecord) : List String :=
  rs.map (reportLine table)

/-! ### Watch registration (src/ino.c:113-120) -/

/-- Result of one `inotify_add_watch` call. -/
inductive RegResult
  | ok (id : Nat)
  | failed
deriving DecidableEq, Repr

/-- The registration loop of `main` (src/ino.c:113-120): watch each path in
argv order, aborting with a failure exit at the first path that cannot be
watched; on success the parallel arrays `wd`/`argv` form this table. -/
def registerLoop (reg : String → RegResult) : List String → Option (List (Nat × String))
  | [] => some []
  | p :: ps =>
    match reg p with
    | RegResult.failed => none
    | RegResult.ok id => (registerLoop reg ps).map (fun t => (id, p) :: t)

/-- The table built when every registration succeeds and the facility
assigns descriptor `assign p` to path `p`. -/
def registerAll (assign : String → Nat) (paths : List String) : List (Nat × String) :=
  paths.map (fun p => (assign p, p))

/-! ### The drain loop of handle_events (src/ino.c:25-37) -/

/-- Errno values the program distinguishes. -/
inductive Errno
  | eagain
  | eintr
  | other
deriving DecidableEq, Repr

/-- Result of one `read` on the inotify descriptor: a positive-length read
delivering whole records (inotify reads never split a record), a
zero-length read, or a failure with an errno. -/
inductive ReadResult
  | recs (rs : List RawRecord)
  | eof
  | fail (e : Errno)
deriving DecidableEq, Repr

/-- The drain loop (src/ino.c:25-37) over a trace of read results: a
successful read prints one line per record and reads again; `len == -1`
with `errno != EAGAIN` exits the process with failure (Bool `true`);
`len <= 0` otherwise (EAGAIN, or a zero-length read) ends the pass. -/
def handleEvents (table : List (Nat × String)) : List ReadResult → List String × Bool
  | [] => ([], false)
  | ReadResult.recs rs :: rest =>
    let out := handleEvents table rest
    (reportAll table rs ++ out.1, out.2)
  | ReadResult.eof :: _ => ([], false)
  | ReadResult.fail Errno.eagain :: _ => ([], false)
  | ReadResult.fail _ :: _ => ([], true)

/-! ### The poll loop of main (src/ino.c:140-174) -/

/-- Result of one `poll` call: failure with an errno, or readiness flags
`r0` (console has data) and `r1` (inotify descriptor has data). -/
inductive PollResult
  | pfail (e : Errno)
  | ready (r0 r1 : Bool)
deriving DecidableEq, Repr

/-- Observable outcome of a run: the exit status, how many times the
explicit cleanup pair `close(fd); free(wd)` (src/ino.c:172-173) executed,
the event lines written, and the console bytes left unread. -/
structure Outcome where
  exitSuccess : Bool
  cleanups : Nat
  lines : List String
  conRest : List Nat
deriving DecidableEq, Repr

/-- The shutdown read loop (src/ino.c:157-158): consume console bytes up to
and including the first newline (byte 10), or everything on end of stream;
the value is what remains unread. -/
def drainStdin : List Nat → List Nat
  | [] => []
  | b :: bs => if b = 10 then bs else drainStdin bs

/-- The poll loop (src/ino.c:140-167) over a trace of poll results, with
`drains` supplying the read trace consumed by each `handle_events` call.
EINTR retries the poll; any other poll failure exits with failure and no
cleanup.  Console readiness is checked first: it drains the console and
breaks to the terminal path (src/ino.c:169-174) which performs the one
cleanup and exits successfully, never reaching the inotify branch.
Otherwise inotify readiness runs `handle_events`, which either exits the
process with failure (no cleanup) or returns to the next poll.  `none`
means the trace ended with the program still blocked in poll. -/
def mainLoop (table : List (Nat × String)) (con : List Nat) :
    List PollResult → List (List ReadResult) → Option Outcome
  | [], _ => none
  | PollResult.pfail Errno.eintr :: ps, ds => mainLoop table con ps ds
  | PollResult.pfail _ :: _, _ => some ⟨false, 0, [], con⟩
  | PollResult.ready true _ :: _, _ => some ⟨true, 1, [], drainStdin con⟩
  | PollResult.ready false true :: ps, ds =>
    let dr := handleEvents table (ds.headD [])
    if dr.2 then some ⟨false, 0, dr.1, con⟩
    else (mainLoop table con ps ds.tail).map
      (fun o => ⟨o.exitSuccess, o.cleanups, dr.1 ++ o.lines, o.conRest⟩)
  | PollResult.ready false false :: ps, ds => mainLoop table con ps ds

/-- The whole program (src/ino.c:76-175): usage check (`argc < 2` means an
empty path list), the registration loop, then the poll loop.  Usage errors
and registration failures exit with failure before any event is read and
without the explicit cleanup. -/
def mainModel (paths : List String) (reg : String → RegResult) (con : List Nat)
    (polls : List PollResult) (drains : List (List ReadResult)) : Option Outcome :=
  if paths.isEmpty then some ⟨false, 0, [], con⟩
  else
    match registerLoop reg paths with
    | none => some ⟨false, 0, [], con⟩
    | some table => mainLoop table con polls drains

/-! ### Helper lemmas -/

theorem leNat4_leBytes4 (n : Nat) (h : n < 4294967296) :
    leNat4 (n % 256) (n / 256 % 256) (n / 65536 % 256) (n / 16777216 % 256) = n := by
  unfold leNat4
  omega

theorem encodeRecord_length (r : RawRecord) :
    (encodeRecord r).length = headerSize + r.name.length := by
  simp [encodeRecord, leBytes4, headerSize]
  omega

theorem decodeEvents_encodeRecord (r : RawRecord) (hr : WellFormed r)
    (buf : List Nat) :
    decodeEvents (encodeRecord r ++ buf) =
      (decodeEvents buf).map (fun rs => r :: rs) := by
  obtain ⟨h1, h2, h3, h4⟩ := hr
  have hshape : encodeRecord r ++ buf =
      r.wd % 256 :: (r.wd / 256 % 256) :: (r.wd / 65536 % 256) :: (r.wd / 16777216 % 256) ::
      (r.mask % 256) :: (r.mask / 256 % 256) :: (r.mask / 65536 % 256) :: (r.mask / 16777216 % 256) ::
      (r.cookie % 256) :: (r.cookie / 256 % 256) :: (r.cookie / 65536 % 256) :: (r.cookie / 16777216 % 256) ::
      (r.name.length % 256) :: (r.name.length / 256 % 256) :: (r.name.length / 65536 % 256) :: (r.name.length / 16777216 % 256) ::
      (r.name ++ buf) := by
    simp [encodeRecord, leBytes4]
  rw [hshape, decodeEvents]
  simp only [leNat4_leBytes4 _ h1, leNat4_leBytes4 _ h2, leNat4_leBytes4 _ h3,
    leNat4_leBytes4 _ h4]
  have hle : r.name.length ≤ (r.name ++ buf).length := by
    simp
  rw [if_pos hle]
  have htake : (r.name ++ buf).take r.name.length = r.name := List.take_left _ _
  have hdrop : (r.name ++ buf).drop r.name.length = buf := List.drop_left _ _
  rw [htake, hdrop]
  cases decodeEvents buf <;> simp

theorem decodeEvents_encodeRecords (rs : List RawRecord)
    (h : ∀ r ∈ rs, WellFormed r) :
    decodeEvents (encodeRecords rs) = some rs := by
  induction rs with
  | nil => simp [encodeRecords, decodeEvents]
  | cons r rest ih =>
    have hr : WellFormed r := h r (List.mem_cons_self r rest)
    have hrest : ∀ x ∈ rest, WellFormed x := fun x hx => h x (List.mem_cons_of_mem r hx)
    have : encodeRecords (r :: rest) = encodeRecord r ++ encodeRecords rest := by
      simp [encodeRecords]
    rw [this, decodeEvents_encodeRecord r hr, ih hrest]
    rfl

theorem encodeRecords_length (rs : List RawRecord) :
    (encodeRecords rs).length =
      (rs.map (fun r => headerSize + r.name.length)).sum := by
  induction rs with
  | nil => simp [encodeRecords]
  | cons r rest ih =>
    have : encodeRecords (r :: rest) = encodeRecord r ++ encodeRecords rest := by
      simp [encodeRecords]
    rw [this]
    simp [encodeRecord_length, ih]

end Ino

/-- C1: decoding a buffer that is the contiguous concatenation of N
well-formed records yields exactly those N records in order, each advance is
the header size plus that record's name length, and the advances sum to the
buffer's valid length. -/
theorem c1_decode_roundtrip (rs : List Ino.RawRecord)
    (h : ∀ r ∈ rs, Ino.WellFormed r) :
    Ino.decodeEvents (Ino.encodeRecords rs) = some rs ∧
    (Ino.decodeEvents (Ino.encodeRecords rs)).map List.length = some rs.length ∧
    (Ino.encodeRecords rs).length =
      (rs.map (fun r => Ino.headerSize + r.name.length)).sum := by
  refine ⟨Ino.decodeEvents_encodeRecords rs h, ?_, Ino.encodeRecords_length rs⟩
  rw [Ino.decodeEvents_encodeRecords rs h]
  rfl

/-- Witness for C1 at a concrete two-record buffer. -/
theorem c1_decode_roundtrip_witness :
    Ino.decodeEvents (Ino.encodeRecords
        [⟨1, 32, 0, [120, 0]⟩, ⟨2, 1073741888, 7, []⟩]) =
      some [⟨1, 32, 0, [120, 0]⟩, ⟨2, 1073741888, 7, []⟩] := by
  have := c1_decode_roundtrip
      [⟨1, 32, 0, [120, 0]⟩, ⟨2, 1073741888, 7, []⟩] (by decide)
  exact this.1

/-- C2: the kind tags of a record are always listed in the fixed priority
order IN_OPEN, IN_CLOSE_NOWRITE, IN_CLOSE_WRITE, IN_MOVED_FROM, IN_MOVED_TO
(the tag list is a sublist of that fixed list), a tag appears exactly when
its mask bit is set, and for a record with both the Opened and MovedFrom
bits set both tags appear with IN_OPEN before IN_MOVED_FROM. -/
theorem c2_kind_tag_order (mask : Nat) :
    ("IN_OPEN: " ∈ Ino.kindTags mask ↔ mask &&& Ino.IN_OPEN ≠ 0) ∧
    ("IN_CLOSE_NOWRITE: " ∈ Ino.kindTags mask ↔ mask &&& Ino.IN_CLOSE_NOWRITE ≠ 0) ∧
    ("IN_CLOSE_WRITE: " ∈ Ino.kindTags mask ↔ mask &&& Ino.IN_CLOSE_WRITE ≠ 0) ∧
    ("IN_MOVED_FROM: " ∈ Ino.kindTags mask ↔ mask &&& Ino.IN_MOVED_FROM ≠ 0) ∧
    ("IN_MOVED_TO: " ∈ Ino.kindTags mask ↔ mask &&& Ino.IN_MOVED_TO ≠ 0) ∧
    List.Sublist (Ino.kindTags mask)
      ["IN_OPEN: ", "IN_CLOSE_NOWRITE: ", "IN_CLOSE_WRITE: ",
        "IN_MOVED_FROM: ", "IN_MOVED_TO: "] ∧
    (mask &&& Ino.IN_OPEN ≠ 0 → mask &&& Ino.IN_MOVED_FROM ≠ 0 →
      List.Sublist ["IN_OPEN: ", "IN_MOVED_FROM: "] (Ino.kindTags mask)) := by
  by_cases h1 : mask &&& Ino.IN_OPEN ≠ 0 <;>
    by_cases h2 : mask &&& Ino.IN_CLOSE_NOWRITE ≠ 0 <;>
      by_cases h3 : mask &&& Ino.IN_CLOSE_WRITE ≠ 0 <;>
        by_cases h4 : mask &&& Ino.IN_MOVED_FROM ≠ 0 <;>
          by_cases h5 : mask &&& Ino.IN_MOVED_TO ≠ 0 <;>
            (simp [Ino.kindTags, h1, h2, h3, h4, h5]; all_goals decide)

/-- Witness for C2: a mask with the Opened and MovedFrom bits set. -/
theorem c2_kind_tag_order_witness :
    List.Sublist ["IN_OPEN: ", "IN_MOVED_FROM: "] (Ino.kindTags 96) :=
  (c2_kind_tag_order 96).2.2.2.2.2.2 (by decide) (by decide)

/-- When the facility assigns descriptors injectively over the supplied
paths, the first-match scan recovers the path a descriptor was assigned
for. -/
theorem Ino.resolve_registerAll (assign : String → Nat) (paths : List String)
    (hinj : ∀ p ∈ paths, ∀ q ∈ paths, assign p = assign q → p = q)
    (p : String) (hp : p ∈ paths) :
    Ino.resolve (Ino.registerAll assign paths) (assign p) = some p := by
  induction paths with
  | nil => cases hp
  | cons q rest ih =>
    by_cases h : assign q = assign p
    · have hqp : q = p := hinj q (List.mem_cons_self q rest) p hp h
      subst hqp
      simp [Ino.registerAll, Ino.resolve]
    · have hp2 : p ∈ rest := by
        rcases List.mem_cons.mp hp with h1 | h1
        · exact absurd (by rw [h1]) h
        · exact h1
      have hinj2 : ∀ a ∈ rest, ∀ b ∈ rest, assign a = assign b → a = b :=
        fun a ha b hb =>
          hinj a (List.mem_cons_of_mem q ha) b (List.mem_cons_of_mem q hb)
      have hrest := ih hinj2 hp2
      simpa [Ino.registerAll, Ino.resolve, h] using hrest

/-- C3: with descriptors assigned injectively across the supplied paths (the
facility invariant: an id identifies exactly one watched path), resolving
the id registered for a path returns exactly that path, in every
registration order; consequently the id registered for B never resolves to
a different path A. -/
theorem c3_resolve_roundtrip (assign : String → Nat) (paths : List String)
    (hinj : ∀ p ∈ paths, ∀ q ∈ paths, assign p = assign q → p = q) :
    (∀ p ∈ paths, Ino.resolve (Ino.registerAll assign paths) (assign p) = some p) ∧
    (∀ a b, a ∈ paths → b ∈ paths → a ≠ b →
      Ino.resolve (Ino.registerAll assign paths) (assign b) ≠ some a) := by
  refine ⟨fun p hp => Ino.resolve_registerAll assign paths hinj p hp, ?_⟩
  intro a b ha hb hne
  rw [Ino.resolve_registerAll assign paths hinj b hb]
  intro hcontra
  exact hne (Option.some.inj hcontra).symm

/-- Witness for C3 at two concrete directories with distinct ids. -/
theorem c3_resolve_roundtrip_witness :
    Ino.resolve (Ino.registerAll (fun p => if p = "A" then 1 else 2) ["A", "B"])
        ((fun p : String => if p = "A" then 1 else 2) "B") ≠ some "A" :=
  (c3_resolve_roundtrip (fun p => if p = "A" then 1 else 2) ["A", "B"]
      (by decide)).2 "A" "B" (by decide) (by decide) (by decide)

/-- C8: the reporter emits exactly one line per record, and a record whose
mask carries none of the five tracked kind bits still produces its line:
the kind prefix is empty, the line is the directory/name part followed by
the object-kind annotation with its line break, and the annotation is
chosen by the IN_ISDIR mask bit. -/
theorem c8_empty_kind_prefix (table : List (Nat × String))
    (rs : List Ino.RawRecord) (r : Ino.RawRecord)
    (h : r.mask &&& Ino.IN_OPEN = 0 ∧ r.mask &&& Ino.IN_CLOSE_NOWRITE = 0 ∧
      r.mask &&& Ino.IN_CLOSE_WRITE = 0 ∧ r.mask &&& Ino.IN_MOVED_FROM = 0 ∧
      r.mask &&& Ino.IN_MOVED_TO = 0) :
    (Ino.reportAll table rs).length = rs.length ∧
    Ino.kindTags r.mask = [] ∧
    Ino.reportLine table r =
      Ino.dirSegment table r.wd ++ Ino.nameSegment r ++ Ino.objectTag r.mask ∧
    (r.mask &&& Ino.IN_ISDIR ≠ 0 → Ino.objectTag r.mask = " [directory]\n") ∧
    (r.mask &&& Ino.IN_ISDIR = 0 → Ino.objectTag r.mask = " [file]\n") := by
  obtain ⟨h1, h2, h3, h4, h5⟩ := h
  have hkt : Ino.kindTags r.mask = [] := by
    simp [Ino.kindTags, h1, h2, h3, h4, h5]
  refine ⟨by simp [Ino.reportAll], hkt, ?_, fun hd => by simp [Ino.objectTag, hd],
    fun hd => by simp [Ino.objectTag, hd]⟩
  simp only [Ino.reportLine, hkt]
  rfl

/-- Witness for C8 at a record with an empty mask. -/
theorem c8_empty_kind_prefix_witness :
    Ino.kindTags (0 : Nat) = [] ∧ Ino.objectTag 0 = " [file]\n" := by
  have := c8_empty_kind_prefix [(1, "d")] [] ⟨1, 0, 0, []⟩ (by decide)
  exact ⟨this.2.1, this.2.2.2.2 (by decide)⟩

/-- The first-match scan finds nothing when no table entry carries the
descriptor. -/
theorem Ino.resolve_eq_none (table : List (Nat × String)) (id : Nat)
    (h : ∀ q ∈ table, q.1 ≠ id) : Ino.resolve table id = none := by
  induction table with
  | nil => rfl
  | cons e rest ih =>
    obtain ⟨w, p⟩ := e
    have hw : w ≠ id := h (w, p) (List.mem_cons_self _ _)
    simp only [Ino.resolve, if_neg hw]
    exact ih (fun q hq => h q (List.mem_cons_of_mem _ hq))

/-- The scan stops at the first entry carrying the descriptor. -/
theorem Ino.resolve_first (t1 t2 : List (Nat × String)) (id : Nat) (p : String)
    (h : ∀ q ∈ t1, q.1 ≠ id) :
    Ino.resolve (t1 ++ (id, p) :: t2) id = some p := by
  induction t1 with
  | nil => simp [Ino.resolve]
  | cons e rest ih =>
    obtain ⟨w, q⟩ := e
    have hw : w ≠ id := h (w, q) (List.mem_cons_self _ _)
    simp only [List.cons_append, Ino.resolve, if_neg hw]
    exact ih (fun x hx => h x (List.mem_cons_of_mem _ hx))

/-- C10: a record whose watch descriptor matches no table entry still gets
its output line, with the directory segment empty (nothing printed in its
place); and the directory segment, when present, is the single path of the
first table entry whose descriptor matches. -/
theorem c10_first_match_or_empty (table : List (Nat × String))
    (r : Ino.RawRecord) :
    ((∀ q ∈ table, q.1 ≠ r.wd) →
      Ino.dirSegment table r.wd = "" ∧
      Ino.reportLine table r =
        String.join (Ino.kindTags r.mask) ++ Ino.nameSegment r ++
          Ino.objectTag r.mask) ∧
    (∀ t1 t2 p, table = t1 ++ (r.wd, p) :: t2 → (∀ q ∈ t1, q.1 ≠ r.wd) →
      Ino.dirSegment table r.wd = p ++ "/") := by
  constructor
  · intro h
    have hd : Ino.dirSegment table r.wd = "" := by
      simp [Ino.dirSegment, Ino.resolve_eq_none table r.wd h]
    refine ⟨hd, ?_⟩
    simp only [Ino.reportLine, hd]
    rw [String.append_empty]
  · intro t1 t2 p htab h
    subst htab
    simp [Ino.dirSegment, Ino.resolve_first t1 t2 r.wd p h]

/-- Witness for C10: an event carrying an unregistered descriptor. -/
theorem c10_first_match_or_empty_witness :
    Ino.dirSegment [(1, "d")] 5 = "" := by
  have := (c10_first_match_or_empty [(1, "d")] ⟨5, 32, 0, []⟩).1 (by decide)
  exact this.1

/-- The shutdown read loop consumes the console bytes up to and including
the first newline. -/
theorem Ino.drainStdin_append (pre post : List Nat) (hpre : 10 ∉ pre) :
    Ino.drainStdin (pre ++ 10 :: post) = post := by
  induction pre with
  | nil => simp [Ino.drainStdin]
  | cons b bs ih =>
    have hb : b ≠ 10 := fun hb => hpre (hb ▸ List.mem_cons_self b bs)
    simp only [List.cons_append, Ino.drainStdin, if_neg hb]
    exact ih (fun hmem => hpre (List.mem_cons_of_mem b hmem))

/-- C4: when the control channel and the notification channel are ready in
the same poll wakeup, the loop takes the shutdown path: the console is
consumed through its line terminator, the run ends successfully, and no
event line is produced — the pending notification trace `ds` is never
drained (the outcome does not depend on it). -/
theorem c4_control_priority (table : List (Nat × String))
    (ps : List Ino.PollResult) (ds : List (List Ino.ReadResult))
    (pre post : List Nat) (hpre : 10 ∉ pre) :
    Ino.mainLoop table (pre ++ 10 :: post)
        (Ino.PollResult.ready true true :: ps) ds =
      some ⟨true, 1, [], post⟩ := by
  have h : Ino.mainLoop table (pre ++ 10 :: post)
      (Ino.PollResult.ready true true :: ps) ds =
      some ⟨true, 1, [], Ino.drainStdin (pre ++ 10 :: post)⟩ := rfl
  rw [h, Ino.drainStdin_append pre post hpre]

/-- Witness for C4: both channels ready with one event pending. -/
theorem c4_control_priority_witness :
    Ino.mainLoop [(1, "d")] ([] ++ 10 :: [])
        (Ino.PollResult.ready true true :: [])
        [[Ino.ReadResult.recs [⟨1, 32, 0, []⟩]]] =
      some ⟨true, 1, [], []⟩ :=
  c4_control_priority [(1, "d")] [] [[Ino.ReadResult.recs [⟨1, 32, 0, []⟩]]]
    [] [] (by decide)

/-- A drain pass over successful reads followed by anything else reports
every record of every successful read, in order, and then behaves as the
rest of the trace dictates. -/
theorem Ino.handleEvents_append (table : List (Nat × String))
    (bufs : List (List Ino.RawRecord)) (rest : List Ino.ReadResult) :
    Ino.handleEvents table (bufs.map Ino.ReadResult.recs ++ rest) =
      ((bufs.map (Ino.reportAll table)).flatten ++
          (Ino.handleEvents table rest).1,
        (Ino.handleEvents table rest).2) := by
  induction bufs with
  | nil => rfl
  | cons b bs ih =>
    simp only [List.map_cons, List.cons_append, Ino.handleEvents, List.append_eq,
      ih, List.flatten_cons, List.append_assoc]

/-- C7: a drain pass keeps reading past every successful read and stops
only at the non-error empty condition (EAGAIN), having reported every
record read, with the process still running; the same pass ending instead
in a genuine read error reports the same records and exits the process
with failure status. -/
theorem c7_drain_until_empty (table : List (Nat × String))
    (bufs : List (List Ino.RawRecord)) (tail : List Ino.ReadResult) :
    Ino.handleEvents table (bufs.map Ino.ReadResult.recs ++
        Ino.ReadResult.fail Ino.Errno.eagain :: tail) =
      ((bufs.map (Ino.reportAll table)).flatten, false) ∧
    Ino.handleEvents table (bufs.map Ino.ReadResult.recs ++
        Ino.ReadResult.fail Ino.Errno.other :: tail) =
      ((bufs.map (Ino.reportAll table)).flatten, true) := by
  constructor <;> (rw [Ino.handleEvents_append]; simp [Ino.handleEvents])

/-- C9: an EINTR poll failure retries the wait with nothing else observable,
while any other poll failure exits the process with failure status (and, per
C5's analysis, without the explicit cleanup). -/
theorem c9_wait_interruption (table : List (Nat × String)) (con : List Nat)
    (ps : List Ino.PollResult) (ds : List (List Ino.ReadResult)) :
    Ino.mainLoop table con (Ino.PollResult.pfail Ino.Errno.eintr :: ps) ds =
      Ino.mainLoop table con ps ds ∧
    Ino.mainLoop table con (Ino.PollResult.pfail Ino.Errno.other :: ps) ds =
      some ⟨false, 0, [], con⟩ ∧
    Ino.mainLoop table con (Ino.PollResult.pfail Ino.Errno.eagain :: ps) ds =
      some ⟨false, 0, [], con⟩ :=
  ⟨rfl, rfl, rfl⟩

/-- Whenever the poll loop terminates, the explicit cleanup pair ran once
exactly on the successful route and zero times on every failure route. -/
theorem Ino.mainLoop_cleanups (table : List (Nat × String)) (con : List Nat)
    (polls : List Ino.PollResult) (ds : List (List Ino.ReadResult))
    (o : Ino.Outcome) (h : Ino.mainLoop table con polls ds = some o) :
    o.cleanups = if o.exitSuccess then 1 else 0 := by
  induction polls generalizing ds o with
  | nil => cases h
  | cons pr ps ih =>
    cases pr with
    | pfail e =>
      cases e with
      | eintr => exact ih ds o h
      | eagain =>
        have h2 : some (⟨false, 0, [], con⟩ : Ino.Outcome) = some o := h
        rw [← Option.some.inj h2]
        rfl
      | other =>
        have h2 : some (⟨false, 0, [], con⟩ : Ino.Outcome) = some o := h
        rw [← Option.some.inj h2]
        rfl
    | ready r0 r1 =>
      cases r0 with
      | true =>
        have h2 : some (⟨true, 1, [], Ino.drainStdin con⟩ : Ino.Outcome) = some o := h
        rw [← Option.some.inj h2]
        rfl
      | false =>
        cases r1 with
        | false => exact ih ds o h
        | true =>
          have h2 : (if (Ino.handleEvents table (ds.headD [])).2 then
              some (⟨false, 0, (Ino.handleEvents table (ds.headD [])).1, con⟩ : Ino.Outcome)
            else (Ino.mainLoop table con ps ds.tail).map
              (fun o2 => ⟨o2.exitSuccess, o2.cleanups, (Ino.handleEvents table (ds.headD [])).1 ++ o2.lines, o2.conRest⟩)) = some o := h
          rcases hf : (Ino.handleEvents table (ds.headD [])).2 with _ | _
          · rw [hf] at h2
            simp only [Bool.false_eq_true, if_false] at h2
            cases hm : Ino.mainLoop table con ps ds.tail with
            | none => rw [hm] at h2; cases h2
            | some o2 =>
              rw [hm] at h2
              rw [← Option.some.inj h2]
              exact ih ds.tail o2 hm
          · rw [hf] at h2
            rw [if_pos rfl] at h2
            rw [← Option.some.inj h2]
            rfl

/-- Counterexample to C5 as stated: on the fatal-read-error exit route the
process exits with failure having executed the explicit cleanup pair zero
times, not once. -/
theorem c5_counterexample :
    Ino.mainModel ["a"] (fun _ => Ino.RegResult.ok 1) []
        [Ino.PollResult.ready false true]
        [[Ino.ReadResult.fail Ino.Errno.other]] =
      some ⟨false, 0, [], []⟩ ∧ (0 : Nat) ≠ 1 :=
  ⟨rfl, by decide⟩

/-- C5 amended: the explicit cleanup (closing the notification descriptor
and releasing the watch table, src/ino.c:172-173) runs exactly once on the
clean operator-initiated shutdown route, and zero times on every
fatal-error exit route, which terminates the process immediately. -/
theorem c5_cleanup_once_iff_clean (paths : List String)
    (reg : String → Ino.RegResult) (con : List Nat)
    (polls : List Ino.PollResult) (ds : List (List Ino.ReadResult))
    (o : Ino.Outcome) (h : Ino.mainModel paths reg con polls ds = some o) :
    (o.exitSuccess = true → o.cleanups = 1) ∧
    (o.exitSuccess = false → o.cleanups = 0) := by
  have hiff : o.cleanups = if o.exitSuccess then 1 else 0 := by
    unfold Ino.mainModel at h
    split at h
    · rw [← Option.some.inj h]
      rfl
    · split at h
      · rw [← Option.some.inj h]
        rfl
      · exact Ino.mainLoop_cleanups _ con polls ds o h
  rw [hiff]
  rcases o.exitSuccess with _ | _ <;> simp

/-- Witness for C5's amended claim on a concrete clean-shutdown run. -/
theorem c5_cleanup_once_iff_clean_witness :
    Ino.Outcome.cleanups ⟨true, 1, [], []⟩ = 1 := by
  have h := c5_cleanup_once_iff_clean ["a"] (fun _ => Ino.RegResult.ok 1) [10]
      [Ino.PollResult.ready true false] [] ⟨true, 1, [], []⟩ rfl
  exact h.1 rfl

/-- Registration aborts as soon as any supplied path cannot be watched. -/
theorem Ino.registerLoop_eq_none (reg : String → Ino.RegResult)
    (paths : List String) (p : String) (hp : p ∈ paths)
    (hfail : reg p = Ino.RegResult.failed) :
    Ino.registerLoop reg paths = none := by
  induction paths with
  | nil => cases hp
  | cons q rest ih =>
    rcases List.mem_cons.mp hp with h1 | h1
    · subst h1
      simp [Ino.registerLoop, hfail]
    · simp only [Ino.registerLoop]
      cases hq : reg q with
      | failed => rfl
      | ok id => rw [ih h1]; rfl

/-- C6: if any supplied path fails to register — even with other valid
paths before or after it — the process exits with failure status before
any event is read: zero event lines, and (the C5 analysis) no cleanup. -/
theorem c6_registration_failure_aborts (paths : List String)
    (reg : String → Ino.RegResult) (con : List Nat)
    (polls : List Ino.PollResult) (ds : List (List Ino.ReadResult))
    (p : String) (hp : p ∈ paths) (hfail : reg p = Ino.RegResult.failed) :
    Ino.mainModel paths reg con polls ds = some ⟨false, 0, [], con⟩ := by
  have hne : paths.isEmpty = false := by
    cases paths with
    | nil => cases hp
    | cons q rest => rfl
  unfold Ino.mainModel
  rw [hne, Ino.registerLoop_eq_none reg paths p hp hfail]
  rfl

/-- Witness for C6: the second of two paths fails to register. -/
theorem c6_registration_failure_aborts_witness :
    Ino.mainModel ["good", "bad"]
        (fun q => if q = "bad" then Ino.RegResult.failed else Ino.RegResult.ok 1)
        [] [Ino.PollResult.ready false true] [[Ino.ReadResult.recs [⟨1, 32, 0, []⟩]]] =
      some ⟨false, 0, [], []⟩ :=
  c6_registration_failure_aborts ["good", "bad"]
    (fun q => if q = "bad" then Ino.RegResult.failed else Ino.RegResult.ok 1)
    [] [Ino.PollResult.ready false true] [[Ino.ReadResult.recs [⟨1, 32, 0, []⟩]]]
    "bad" (by decide) (by decide)
